import Mathlib

/-
Verification of the vmmfuzzer I/O-port fuzzer: a shallow embedding of
src/lib/array.c (dynamic array and rand48-backed RNG service),
src/src/lib/iofuzzer.c (the fuzzer object) and the CLI/worker harness
(port-spec parsing, log formatting), with theorems settling the frozen
claims about it.

Machine arithmetic is modelled over Nat with explicit `% 2^w` where the C
uses fixed-width integers.  The C RNG is glibc's rand48 family: the state
is three 16-bit lanes forming a 48-bit word X, each draw first steps
X := (0x5DEECE66D * X + 0xB) mod 2^48 and then reads the new X
(`erand48` returns X / 2^48 as an IEEE double, exactly; `jrand48` returns
the high 32 bits of X as a signed 32-bit value).  Double (and, in the
array growth loop, float) arithmetic is modelled exactly by rounding the
integer significand of every intermediate result to 53 (resp. 24)
significant bits, round-to-nearest, ties-to-even.
-/

namespace VmmFuzzer

def TWO16 : Nat := 2 ^ 16
def TWO48 : Nat := 2 ^ 48
def TWO53 : Nat := 2 ^ 53
def TWO64 : Nat := 2 ^ 64

/-- Unsigned 64-bit subtraction `a - b` (size_t / unsigned long arithmetic),
valid for `b ≤ 2^64`; wraps modulo `2^64` exactly as the C does. -/
def u64sub (a b : Nat) : Nat := (a + TWO64 - b) % TWO64

/-- rand48 step: X := (0x5DEECE66D * X + 0xB) mod 2^48.  Every draw of the
glibc rand48 family first advances the three 16-bit lanes this way. -/
def rand48_step (x : Nat) : Nat := (25214903917 * x + 11) % TWO48

/-- Fueled bit length: `blenAux fuel n` is the number of binary digits of
`n`, provided `n < 2^fuel`. -/
def blenAux : Nat → Nat → Nat
  | 0, _ => 0
  | _ + 1, 0 => 0
  | fuel + 1, n + 1 => blenAux fuel ((n + 1) / 2) + 1

/-- Bit length of `n` (correct for every `n < 2^128`, which covers all the
significands that arise below). -/
def blen (n : Nat) : Nat := blenAux 128 n

/-- Round the integer `v` to `p` significant bits, round-to-nearest with
ties to even: the rounding IEEE-754 binary floating point performs on the
significand of an exact integer result. -/
def roundSig (p : Nat) (v : Nat) : Nat :=
  if blen v ≤ p then v
  else
    let k := blen v - p
    let q := v / 2 ^ k
    let r := v % 2 ^ k
    let h := 2 ^ (k - 1)
    if h < r then (q + 1) * 2 ^ k
    else if r < h then q * 2 ^ k
    else if q % 2 = 0 then q * 2 ^ k else (q + 1) * 2 ^ k

/-- Rounding of an exact integer to an IEEE double (53-bit significand). -/
def round53 (v : Nat) : Nat := roundSig 53 v

/-- Rounding of an exact integer to an IEEE float (24-bit significand). -/
def round24 (v : Nat) : Nat := roundSig 24 v

/-
RNG service (src/lib random.c).  `random_ulong_with_range(random, begin, end)`
is `(unsigned long)(erand48(state) * (end - begin + 1) + begin)`:
one LCG step, then the double arithmetic
  fl( fl( (X/2^48) * fl(N) ) + begin )
truncated to an unsigned long, where N = end - begin + 1 in unsigned-long
(u64) arithmetic.  All doubles here are nonnegative multiples of 2^-48, so
each is represented by its numerator over 2^48 and every fl step is a
`round53` of that integer numerator.
-/

/-- Value of `random_ulong_with_range` as a function of the post-step LCG
word `x1` (the new 48-bit state erand48 just produced). -/
def rangedFrom (x1 b e : Nat) : Nat :=
  let bigN := (u64sub e b + 1) % TWO64
  let nd := round53 bigN
  let d := round53 (x1 * nd)
  round53 (d + b * TWO48) / TWO48

/-- random_ulong_with_range: step the LCG, then form the ranged value from
the new state.  Returns (value, new LCG word). -/
def random_ulong_with_range (x b e : Nat) : Nat × Nat :=
  let x1 := rand48_step x
  (rangedFrom x1 b e, x1)

/-- jrand48 reads the high 32 bits of the new LCG word as a signed 32-bit
value; random_ulong casts that (sign-extended) long to unsigned long. -/
def jrand48FromNew (x1 : Nat) : Nat :=
  let t := x1 / TWO16
  if t < 2 ^ 31 then t else TWO64 - 2 ^ 32 + t

/-- random_ulong (= random_number): one LCG step, value from the high 32
bits, sign-extended into a 64-bit unsigned long. -/
def random_ulong (x : Nat) : Nat × Nat :=
  let x1 := rand48_step x
  (jrand48FromNew x1, x1)

/-- random_fermat_number: (unsigned long)(pow(2, k) + 1), k uniform in
[1,31]; pow and the add are exact in double for this range. -/
def random_fermat_number (x : Nat) : Nat × Nat :=
  let p := random_ulong_with_range x 1 31
  (2 ^ p.1 + 1, p.2)

/-- random_mersenne_number: (unsigned long)(pow(2, k) - 1), k uniform in
[1,32]; exact in double for this range. -/
def random_mersenne_number (x : Nat) : Nat × Nat :=
  let p := random_ulong_with_range x 1 32
  (2 ^ p.1 - 1, p.2)

/-- The character set literal of random_string.  The C literal writes `%%`,
which in a plain (non-format) string is two `%` characters, so the array
holds 96 visible characters (with `%` = 37 twice, at indices 5 and 6)
followed by the NUL terminator at index 96; sizeof(charset) = 97. -/
def charset : List Nat :=
  [32, 33, 34, 35, 36, 37, 37, 38, 39, 40, 41, 42, 43, 44, 45, 46, 47,
   48, 49, 50, 51, 52, 53, 54, 55, 56, 57,
   58, 59, 60, 61, 62, 63, 64,
   65, 66, 67, 68, 69, 70, 71, 72, 73, 74, 75, 76, 77, 78, 79, 80, 81,
   82, 83, 84, 85, 86, 87, 88, 89, 90,
   91, 92, 93, 94, 95, 96,
   97, 98, 99, 100, 101, 102, 103, 104, 105, 106, 107, 108, 109, 110,
   111, 112, 113, 114, 115, 116, 117, 118, 119, 120, 121, 122,
   123, 124, 125, 126,
   0]

/-- `n` iterated LCG steps.  (Iterating f n times satisfies
f^(n+1) = f ∘ f^n = f^n ∘ f; the outer-application form is used so that
its weak head normal form stays shallow.) -/
def lcgIter : Nat → Nat → Nat
  | 0, x => x
  | n + 1, x => rand48_step (lcgIter n x)

/-- The bytes written by the loop body of random_string, `n` times: each
character is `charset[random_number_with_range(random, 0,
sizeof(charset) - 1)]`, an index drawn in [0, 96] inclusive; the i-th
character reads the LCG word after i+1 steps.  The loop leaves the RNG
advanced by `n` steps (`lcgIter n`). -/
def random_string_bytes : Nat → Nat → List Nat
  | 0, _ => []
  | n + 1, x =>
    charset.getD (rangedFrom (rand48_step x) 0 96) 0 :: random_string_bytes n (rand48_step x)

/-- Number of loop iterations of random_string for a given `length`
argument: the loop condition is `i < length - 2` computed in size_t, so
for length 0 or 1 the bound wraps around to 2^64 - 2 or 2^64 - 1. -/
def rsWriteCount (length : Nat) : Nat := u64sub length 2

/-- `rsWritesIndex length i` holds when the call `random_string(_, buf,
length)` provably stores to `buf[i]`.  The loop counter is a C `int`: it
is undefined behavior once it reaches 2^31, so the model asserts only
the stores that happen before any overflow can occur - the loop stores
index i whenever i is below both the size_t bound `length - 2` and the
int-overflow threshold 2^31, and the final `string[i] = 0` stores index
count only when the whole loop terminates without overflow
(count < 2^31).  In particular, for length ≤ 1 the size_t bound wraps
and indices 1, 2, ... are stored (far outside the buffer) long before
the counter could overflow. -/
def rsWritesIndex (length i : Nat) : Prop :=
  (i < rsWriteCount length ∧ i < 2 ^ 31) ∨
    (i = rsWriteCount length ∧ rsWriteCount length < 2 ^ 31)

instance (length i : Nat) : Decidable (rsWritesIndex length i) := by
  unfold rsWritesIndex; infer_instance

/-- random_string(random, buf, length): when the loop count stays below
the int-overflow threshold, the bytes stored at buf[0..count] (count
loop characters, then the terminating NUL) together with the final LCG
word (one step per character drawn).  When the count reaches 2^31 the
`int i` counter overflows before the loop can terminate - undefined
behavior - modelled as `none`. -/
def random_string (x length : Nat) : Option (List Nat × Nat) :=
  if rsWriteCount length < 2 ^ 31 then
    some (random_string_bytes (rsWriteCount length) x ++ [0],
      lcgIter (rsWriteCount length) x)
  else none

/-- The call the fuzzer makes, random_string(random, buf, MAXSIZE) with
MAXSIZE = 256: count = 254 loop characters plus the NUL, far below the
overflow threshold, so this is the defined value random_string returns
(see random_string_at_256). -/
def random_string_max (x : Nat) : List Nat × Nat :=
  (random_string_bytes 254 x ++ [0], lcgIter 254 x)

/-
Port-spec parsing (iofuzzer_parse_ports in the CLI translation unit).
The strtok_r/strtoul tokenisation is C library code; the model receives
the token list each element of which is the parsed numeric content of one
comma-separated token: `(begin, none)` for a single value and
`(begin, some end)` for LOW-HIGH.  Only the explicit HIGH bound is
clamped: `if (end > MAXPORT) end = MAXPORT`; a single token keeps
`end = begin` unclamped.  Then `for (port = begin; port <= end; port++)`
appends inclusively.
-/

def MAXPORT : Nat := 0xffff

/-- Expansion of one port-spec token, mirroring the per-token body of
iofuzzer_parse_ports. -/
def portToken (t : Nat × Option Nat) : List Nat :=
  let begin_ := t.1
  let end_ := match t.2 with
    | none => begin_
    | some e0 => if MAXPORT < e0 then MAXPORT else e0
  if begin_ ≤ end_ then (List.range (end_ + 1 - begin_)).map (fun i => begin_ + i)
  else []

/-- iofuzzer_parse_ports over the numeric token list. -/
def iofuzzer_parse_ports (tokens : List (Nat × Option Nat)) : List Nat :=
  (tokens.map portToken).flatten

/-
Dynamic array (src/lib/array.c).  Only the fields the growth policy
reads/writes are modelled: `element_size`, `length`, the tracked capacity
`size` (in bytes), and the actually allocated byte count of `data`
(`allocBytes`).  Note array_new callocs MINLENGTH = 16 elements but then
records `array->size = size`, i.e. a tracked capacity of ONE element.
`growth_factor` is the float 2; `n *= array->growth_factor * m` rounds n
to float (24-bit), multiplies by the exact float 2*m, rounds again, and
truncates back to size_t - modelled by round24. -/

structure CArray where
  element_size : Nat
  length : Nat
  size : Nat
  allocBytes : Nat
deriving DecidableEq, Repr

/-- array_new: calloc 16 elements, but record size = one element's size. -/
def array_new (s : Nat) : CArray :=
  { element_size := s, length := 0, size := s, allocBytes := 16 * s }

/-- One float multiply-accumulate of the grow loop:
`n *= growth_factor * m` with growth_factor = 2.0f. -/
def f32mul (n m : Nat) : Nat := round24 (round24 n * (2 * round24 m))

/-- The loop `for (m = 1, n = array->size; size > n; m++)
n *= array->growth_factor * m;` with explicit fuel (the C loop does not
terminate when n stays 0, e.g. for element_size 0). -/
def growLoopAux (req : Nat) : Nat → Nat → Nat → Option Nat
  | 0, _, _ => none
  | fuel + 1, m, n => if req ≤ n then some n else growLoopAux req fuel (m + 1) (f32mul n m)

/-- _array_grow: only called (via _array_set_length) when the requested
byte size exceeds the tracked capacity; reallocs to the loop's result. -/
def _array_grow (a : CArray) (length : Nat) : Option CArray :=
  let size := a.element_size * length
  if size ≤ a.size then none
  else match growLoopAux size 64 1 a.size with
    | none => none
    | some n => some { a with length := length, size := n, allocBytes := n }

/-- _array_shrink: lowers only the logical length. -/
def _array_shrink (a : CArray) (length : Nat) : Option CArray :=
  if a.element_size * length ≤ a.size then some { a with length := length }
  else none

/-- _array_set_length dispatches on whether the requested byte size fits
the tracked capacity. -/
def _array_set_length (a : CArray) (length : Nat) : Option CArray :=
  if a.element_size * length ≤ a.size then _array_shrink a length
  else _array_grow a length

/-- array_new_with_length = array_new then _array_set_length. -/
def array_new_with_length (s len : Nat) : Option CArray :=
  _array_set_length (array_new s) len

/-- An installed port array (an array_t of unsigned long).  `entries`
are the words inside the logical length; `backing` gives the stale word
sitting at each slot of the calloc/realloc backing store past the
logical length (_array_shrink only lowers the length, so those words
keep whatever was stored there before - they are NOT necessarily 0). -/
structure PortArray where
  entries : List Nat
  backing : Nat → Nat

/-- array_index(ports, unsigned long, i): an index inside the logical
length reads the entry; anything at or past the length reads the stale
backing word at that slot. -/
def portRead (pa : PortArray) (i : Nat) : Nat :=
  if h : i < pa.entries.length then pa.entries.get ⟨i, h⟩ else pa.backing i

/-
The fuzzer object (src/src/lib/iofuzzer.c).  struct iofuzzer is modelled
field-for-field, with the RNG handle inlined: `x` and `rhi` are bytes
0..5 (the 48-bit rand48 lanes) and bytes 6..7 of the 256-byte
random->state buffer (the LCG touches only the lanes; bytes 6..7 ride
along through snapshot/restore).  `state` is the 8-byte snapshot in the
same split.  `a5`/`a6` are the pointer values of the two 256-byte scratch
buffers (stored into variates[5]/variates[6]); `buf5`/`buf6` their
current contents as far as random_string writes them (bytes 0..254 of
256; byte 255 stays 0 from calloc).  `dispatched` is a ghost field
recording the operand tuple handed to the most recent port-I/O
instruction by `_iofuzzer_iterate`'s switch.  mutex/refcount are
concurrency/ownership bookkeeping with no effect on the modelled values.
-/

structure Fuzzer where
  x : Nat
  rhi : Nat
  ports : Option PortArray
  state : Nat × Nat
  variates : List Nat
  buf5 : List Nat
  buf6 : List Nat
  a5 : Nat
  a6 : Nat
  dispatched : List Nat

/-- _iofuzzer_random_number: draw a selector in [0,2], then one of
random_number (= random_ulong), random_fermat_number,
random_mersenne_number.  (The C switch has no default; the selector is
provably ≤ 2, so the `_` arm is the `case 2` arm.) -/
def _iofuzzer_random_number (x : Nat) : Nat × Nat :=
  let sel := random_ulong_with_range x 0 2
  match sel.1 with
  | 0 => random_ulong sel.2
  | 1 => random_fermat_number sel.2
  | _ => random_mersenne_number sel.2

/-- The result of one variate-generation step started at LCG word `x`:
the 7-slot tuple, the refilled buffer contents, and the final LCG word. -/
structure GenOut where
  tuple : List Nat
  buf5 : List Nat
  buf6 : List Nat
  xEnd : Nat
deriving DecidableEq, Repr

/-- The draw sequence of _iofuzzer_randomize after the snapshot:
slot 0 uniform in [0, NUM_FUNCS-1] = [0,11]; slots 1,2 via
_iofuzzer_random_number; slot 3 uniform in [1, MAXSIZE/4] = [1,64];
slot 4 from the port list (index uniform in [0, length-1] computed in
size_t, so an empty list underflows to [0, 2^64-1], the double N becomes
0 and the read hits slot 0 of the backing store past the logical
length - stale memory, portRead's `backing` arm) or uniform in
[0, MAXPORT]; then both buffers are refilled by
random_string(·, ·, MAXSIZE): 254 characters + NUL, the defined value
random_string_max (the loop count 254 is far below the int-overflow
threshold, see random_string_at_256), and slots 5/6 are rewritten with
the unchanged buffer addresses. -/
def genFrom (x : Nat) (ports : Option PortArray) (a5 a6 : Nat) : GenOut :=
  let p0 := random_ulong_with_range x 0 11
  let p1 := _iofuzzer_random_number p0.2
  let p2 := _iofuzzer_random_number p1.2
  let p3 := random_ulong_with_range p2.2 1 64
  let p4 := match ports with
    | some pa =>
      let pi := random_ulong_with_range p3.2 0 (u64sub (pa.entries.length % TWO64) 1)
      (portRead pa pi.1, pi.2)
    | none => random_ulong_with_range p3.2 0 MAXPORT
  let s5 := random_string_max p4.2
  let s6 := random_string_max s5.2
  { tuple := [p0.1, p1.1, p2.1, p3.1, p4.1, a5, a6],
    buf5 := s5.1, buf6 := s6.1, xEnd := s6.2 }

/-- The LCG word left by one _iofuzzer_random_number draw. -/
def mixWord (x : Nat) : Nat := (_iofuzzer_random_number x).2

/-- The LCG word produced by the slot-3 draw of _iofuzzer_randomize
started at word `x` (after slot 0 and the two mixed draws). -/
def slot3Word (x : Nat) : Nat := rand48_step (mixWord (mixWord (rand48_step x)))

/-- The LCG word produced by the slot-4 draw of _iofuzzer_randomize. -/
def slot4Word (x : Nat) : Nat := rand48_step (slot3Word x)

/-- _iofuzzer_randomize: snapshot the 8 RNG state bytes into
fuzzer->state BEFORE drawing, then fill all seven slots. -/
def _iofuzzer_randomize (f : Fuzzer) : Fuzzer :=
  let g := genFrom f.x f.ports f.a5 f.a6
  { f with state := (f.x, f.rhi), variates := g.tuple,
           buf5 := g.buf5, buf6 := g.buf6, x := g.xEnd }

/-- _iofuzzer_iterate: dispatch one of the twelve port-I/O instructions
on the CURRENT variates (ghost-recorded in `dispatched`; the asm has no
effect on the modelled state), then randomize for the next iteration. -/
def _iofuzzer_iterate (f : Fuzzer) : Fuzzer :=
  _iofuzzer_randomize { f with dispatched := f.variates }

/-- _iofuzzer_set_state: random_set_state copies
MIN(MAX(size,6),256) bytes into the RNG state buffer - for the 8-byte
snapshots used everywhere that is bytes 0..7, i.e. the lanes and the two
ride-along bytes - then randomize. -/
def _iofuzzer_set_state (f : Fuzzer) (s : Nat × Nat) : Fuzzer :=
  _iofuzzer_randomize { f with x := s.1 % TWO48, rhi := s.2 % TWO16 }

/-- iofuzzer_new: calloc gives a zeroed RNG state (x = 0), no ports, two
zeroed 256-byte buffers, a 7-slot zeroed variate array whose slots 5/6
are set to the buffer addresses, then one randomize. -/
def iofuzzer_new (a5 a6 : Nat) : Fuzzer :=
  _iofuzzer_randomize
    { x := 0, rhi := 0, ports := none, state := (0, 0),
      variates := [0, 0, 0, 0, 0, a5, a6],
      buf5 := List.replicate 256 0, buf6 := List.replicate 256 0,
      a5 := a5, a6 := a6, dispatched := [] }

/-- iofuzzer_set_ports (body under the lock, non-null fuzzer): install
the ports reference (a NULL ports argument is accepted and clears the
list), then _iofuzzer_set_state(fuzzer, fuzzer->state, 8) - which
restores the RNG from the stored snapshot and randomizes - then
randomize once more. -/
def iofuzzer_set_ports (f : Fuzzer) (ports : Option PortArray) : Fuzzer :=
  let f1 := { f with ports := ports }
  _iofuzzer_randomize (_iofuzzer_set_state f1 f1.state)

/-- iofuzzer_set_random (body under the lock, non-null fuzzer and
rng): swap in the new RNG handle - its state bytes become the fuzzer's
generator state - then randomize once, with no restore. -/
def iofuzzer_set_random (f : Fuzzer) (rx rhi : Nat) : Fuzzer :=
  _iofuzzer_randomize { f with x := rx % TWO48, rhi := rhi % TWO16 }

/-- iofuzzer_set_state (body for non-null arguments). -/
def iofuzzer_set_state (f : Fuzzer) (s : Nat × Nat) : Fuzzer :=
  _iofuzzer_set_state f s

/-- iofuzzer_set_variates (body for a non-null fuzzer): unconditionally
replaces the variate array reference with the caller's array. -/
def iofuzzer_set_variates (f : Fuzzer) (v : List Nat) : Fuzzer :=
  { f with variates := v }

/-- iofuzzer_iterate (body for a non-null fuzzer). -/
def iofuzzer_iterate (f : Fuzzer) : Fuzzer :=
  _iofuzzer_iterate f

/-- iofuzzer_iterate_with_state (body for non-null arguments):
_iofuzzer_set_state then _iofuzzer_iterate. -/
def iofuzzer_iterate_with_state (f : Fuzzer) (s : Nat × Nat) : Fuzzer :=
  _iofuzzer_iterate (_iofuzzer_set_state f s)

/-- The 8 snapshot bytes in memory order (little-endian lanes, then the
two ride-along bytes). -/
def stateBytes (s : Nat × Nat) : List Nat :=
  [s.1 % 256, s.1 / 256 % 256, s.1 / 256 ^ 2 % 256, s.1 / 256 ^ 3 % 256,
   s.1 / 256 ^ 4 % 256, s.1 / 256 ^ 5 % 256, s.2 % 256, s.2 / 256 % 256]

/-- iofuzzer_get_state (non-null arguments): memcpy(state, fuzzer->state,
sizeof(fuzzer->state)) - always all 8 bytes, whatever `size` says. -/
def iofuzzer_get_state (f : Fuzzer) (size : Nat) : List Nat :=
  stateBytes f.state

/-
Null-argument behaviour of the public entry points.  `none` in the
Option-typed arguments models a NULL pointer.  `einval` models
"set errno = EINVAL and return NULL before any mutation"; `crash` models
proceeding into a NULL-pointer dereference (iofuzzer_set_ports with a
NULL ports argument is NOT rejected - only the fuzzer handle is checked -
and iofuzzer_set_random with a NULL rng installs it and then randomize
reaches pthread_mutex_lock(&NULL->mutex) inside random_double).
-/

inductive CallResult (α : Type) where
  | ok : α → CallResult α
  | einval : CallResult α
  | crash : CallResult α
deriving DecidableEq

/-- iofuzzer_set_ports checks only the fuzzer handle; a NULL port list is
installed as "no list" and the double re-randomize still runs. -/
def iofuzzer_set_ports_api :
    Option Fuzzer → Option PortArray → CallResult Fuzzer
  | none, _ => .einval
  | some f, ports => .ok (iofuzzer_set_ports f ports)

/-- iofuzzer_set_random checks only the fuzzer handle; a NULL rng handle
is installed and then dereferenced inside _iofuzzer_randomize. -/
def iofuzzer_set_random_api :
    Option Fuzzer → Option (Nat × Nat) → CallResult Fuzzer
  | none, _ => .einval
  | some _, none => .crash
  | some f, some r => .ok (iofuzzer_set_random f r.1 r.2)

/-- iofuzzer_set_state checks both the fuzzer and the state buffer. -/
def iofuzzer_set_state_api :
    Option Fuzzer → Option (Nat × Nat) → CallResult Fuzzer
  | none, _ => .einval
  | some _, none => .einval
  | some f, some s => .ok (iofuzzer_set_state f s)

/-- iofuzzer_get_state checks both the fuzzer and the output buffer
(`true` = non-NULL buffer). -/
def iofuzzer_get_state_api :
    Option Fuzzer → Bool → Nat → CallResult (List Nat)
  | none, _, _ => .einval
  | some _, false, _ => .einval
  | some f, true, size => .ok (iofuzzer_get_state f size)

/-- iofuzzer_iterate_with_state checks the fuzzer handle itself; a NULL
state buffer is rejected by _iofuzzer_set_state before any mutation and
the iteration is skipped. -/
def iofuzzer_iterate_with_state_api :
    Option Fuzzer → Option (Nat × Nat) → CallResult Fuzzer
  | none, _ => .einval
  | some _, none => .einval
  | some f, some s => .ok (iofuzzer_iterate_with_state f s)

/-
Worker-harness logging (thread_start in the CLI translation unit).
The state field of a log line is
  fprintf(stream, "%#llx,", *((unsigned long long *)state))
where `state` holds the 8 snapshot bytes just copied by
iofuzzer_get_state: the little-endian 64-bit reading of the snapshot.
printf's %#llx prints lowercase hex with no zero padding, and prints a
bare "0" (no 0x) when the value is zero.
-/

/-- Lowercase hexadecimal digit. -/
def hexDigitChar (d : Nat) : Char :=
  if d < 10 then Char.ofNat (48 + d) else Char.ofNat (87 + d)

/-- Minimal hex digit string of `n` (empty for 0); 16 digits of fuel
cover every unsigned long long. -/
def hexRepAux : Nat → Nat → List Char
  | 0, _ => []
  | fuel + 1, n =>
    if n = 0 then [] else hexRepAux fuel (n / 16) ++ [hexDigitChar (n % 16)]

/-- printf("%#llx", v). -/
def fmtHashLLX (v : Nat) : String :=
  if v % TWO64 = 0 then "0"
  else String.mk (['0', 'x'] ++ hexRepAux 16 (v % TWO64))

/-- The 8 snapshot bytes reinterpreted as an unsigned 64-bit little-endian
word: lanes are bytes 0..5, the ride-along bytes are 6..7. -/
def stateU64 (s : Nat × Nat) : Nat := s.1 % TWO48 + s.2 % TWO16 * TWO48

/-- Worker start-up for the first log line under `--state seed` and no
`--ports`: the worker builds its own fuzzer, installs the parsed (NULL)
port list, then installs the process-wide RNG freshly seeded with the 8
little-endian bytes of `seed` (random_new_with_state copies lanes =
seed mod 2^48 and ride-along bytes = seed / 2^48); with a single worker
no other RNG draw intervenes before iofuzzer_set_random snapshots. -/
def worker_setup (a5 a6 seed : Nat) : Fuzzer :=
  iofuzzer_set_random (iofuzzer_set_ports (iofuzzer_new a5 a6) none)
    (seed % TWO48) (seed / TWO48)

/-- Field 3 of the worker's first log line: the stored snapshot read as a
little-endian u64 and formatted with %#llx. -/
def thread_first_state_field (a5 a6 seed : Nat) : String :=
  fmtHashLLX (stateU64 (worker_setup a5 a6 seed).state)

/-
Reachability and the variate invariants (claim C2).
-/

/-- An installed port list under which the slot-4 draw is guaranteed to
read a valid 16-bit port: either no list, or a NONEMPTY list of entries
≤ 0xFFFF with at most 2^53 of them.  An empty installed list is
excluded because its index draw underflows in size_t and reads a stale
word of the backing store, which no bound constrains; the 2^53 cap
keeps the (double) conversion of the length exact, so the drawn index
stays inside the logical length.  (A NULL list trivially qualifies:
slot 4 is then drawn uniformly in [0, MAXPORT].) -/
def PortsOk : Option PortArray → Prop
  | none => True
  | some pa =>
    pa.entries ≠ [] ∧ pa.entries.length ≤ TWO53 ∧ ∀ p ∈ pa.entries, p ≤ MAXPORT

/-- The claimed shape of a variate array: exactly 7 slots with slot 0 in
[0,11], slot 3 in [1,64], slot 4 in [0,0xFFFF]. -/
def variatesOk : List Nat → Prop
  | [v0, _, _, v3, v4, _, _] => v0 ≤ 11 ∧ 1 ≤ v3 ∧ v3 ≤ 64 ∧ v4 ≤ MAXPORT
  | _ => False

/-- The invariant claimed for the variate tuple: length 7, slot 0 in
[0,11], slot 3 in [1,64], slot 4 in [0,0xFFFF]. -/
def VariatesInv (f : Fuzzer) : Prop := variatesOk f.variates

/-- States reachable through construction and the public operations, as
the claim quantifies them (iofuzzer_set_variates included, arbitrary
arguments). -/
inductive Reachable : Fuzzer → Prop
  | new (a5 a6 : Nat) : Reachable (iofuzzer_new a5 a6)
  | set_ports (f : Fuzzer) (ps : Option PortArray) :
      Reachable f → Reachable (iofuzzer_set_ports f ps)
  | set_random (f : Fuzzer) (rx rhi : Nat) :
      Reachable f → Reachable (iofuzzer_set_random f rx rhi)
  | set_state (f : Fuzzer) (s : Nat × Nat) :
      Reachable f → Reachable (iofuzzer_set_state f s)
  | set_variates (f : Fuzzer) (v : List Nat) :
      Reachable f → Reachable (iofuzzer_set_variates f v)
  | iterate (f : Fuzzer) : Reachable f → Reachable (iofuzzer_iterate f)
  | iterate_with_state (f : Fuzzer) (s : Nat × Nat) :
      Reachable f → Reachable (iofuzzer_iterate_with_state f s)

/-- Reachability without iofuzzer_set_variates and with installed port
lists restricted by PortsOk (NULL, or nonempty with valid 16-bit entries
and at most 2^53 of them) - the hypotheses under which the claimed
invariant actually holds. -/
inductive ReachableBounded : Fuzzer → Prop
  | new (a5 a6 : Nat) : ReachableBounded (iofuzzer_new a5 a6)
  | set_ports (f : Fuzzer) (ps : Option PortArray) (hps : PortsOk ps) :
      ReachableBounded f → ReachableBounded (iofuzzer_set_ports f ps)
  | set_random (f : Fuzzer) (rx rhi : Nat) :
      ReachableBounded f → ReachableBounded (iofuzzer_set_random f rx rhi)
  | set_state (f : Fuzzer) (s : Nat × Nat) :
      ReachableBounded f → ReachableBounded (iofuzzer_set_state f s)
  | iterate (f : Fuzzer) : ReachableBounded f → ReachableBounded (iofuzzer_iterate f)
  | iterate_with_state (f : Fuzzer) (s : Nat × Nat) :
      ReachableBounded f → ReachableBounded (iofuzzer_iterate_with_state f s)

/-
Helper lemmas about bit length and floating-point rounding.
-/

theorem blenAux_zero (fuel : Nat) : blenAux fuel 0 = 0 := by
  cases fuel <;> rfl

theorem blenAux_correct :
    ∀ fuel n, n < 2 ^ fuel → n ≠ 0 →
      2 ^ (blenAux fuel n - 1) ≤ n ∧ n < 2 ^ blenAux fuel n := by
  intro fuel
  induction fuel with
  | zero => intro n hn h0; omega
  | succ fuel ih =>
    intro n hn h0
    match n, h0 with
    | n + 1, _ =>
      show 2 ^ (blenAux fuel ((n + 1) / 2) + 1 - 1) ≤ n + 1 ∧
        n + 1 < 2 ^ (blenAux fuel ((n + 1) / 2) + 1)
      by_cases h1 : n = 0
      · subst h1
        norm_num [blenAux_zero]
      · have hhalf : (n + 1) / 2 ≠ 0 := by omega
        have hlt : (n + 1) / 2 < 2 ^ fuel := by
          have := Nat.pow_succ 2 fuel
          omega
        obtain ⟨hlo, hhi⟩ := ih ((n + 1) / 2) hlt hhalf
        have hb1 : 1 ≤ blenAux fuel ((n + 1) / 2) := by
          by_contra hb
          have : blenAux fuel ((n + 1) / 2) = 0 := by omega
          rw [this] at hhi
          simp at hhi
          omega
        constructor
        · have : 2 ^ (blenAux fuel ((n + 1) / 2) + 1 - 1) =
            2 * 2 ^ (blenAux fuel ((n + 1) / 2) - 1) := by
            rw [show blenAux fuel ((n + 1) / 2) + 1 - 1 =
              (blenAux fuel ((n + 1) / 2) - 1) + 1 by omega]
            ring
          rw [this]
          omega
        · have : 2 ^ (blenAux fuel ((n + 1) / 2) + 1) =
            2 * 2 ^ blenAux fuel ((n + 1) / 2) := by
            rw [Nat.pow_succ]; ring
          rw [this]
          omega

theorem blen_correct (n : Nat) (hn : n < 2 ^ 128) (h0 : n ≠ 0) :
    2 ^ (blen n - 1) ≤ n ∧ n < 2 ^ blen n :=
  blenAux_correct 128 n hn h0

theorem blen_le (n m : Nat) (hm : m ≤ 128) (h : n < 2 ^ m) : blen n ≤ m := by
  by_cases h0 : n = 0
  · subst h0; simp [blen, blenAux]
  · obtain ⟨hlo, hhi⟩ := blen_correct n
      (lt_of_lt_of_le h (Nat.pow_le_pow_right (by omega) hm)) h0
    by_contra hc
    have hml : m ≤ blen n - 1 := by omega
    have : 2 ^ m ≤ 2 ^ (blen n - 1) := Nat.pow_le_pow_right (by omega) hml
    omega

theorem roundSig_eq_of_blen_le (p v : Nat) (h : blen v ≤ p) :
    roundSig p v = v := by
  simp [roundSig, h]

theorem roundSig_eq_of_lt (p v : Nat) (hp : p ≤ 128) (h : v < 2 ^ p) :
    roundSig p v = v :=
  roundSig_eq_of_blen_le p v (blen_le v p hp h)

theorem roundSig_dvd_eq (p v k0 : Nat) (_hp : 1 ≤ p) (hd : 2 ^ k0 ∣ v)
    (hv : v < 2 ^ (p + k0)) (hk : p + k0 ≤ 128) : roundSig p v = v := by
  by_cases hb : blen v ≤ p
  · exact roundSig_eq_of_blen_le p v hb
  · have hble : blen v ≤ p + k0 := blen_le v (p + k0) hk hv
    have hkk : blen v - p ≤ k0 := by omega
    have hd2 : 2 ^ (blen v - p) ∣ v :=
      dvd_trans (Nat.pow_dvd_pow 2 hkk) hd
    have hr : v % 2 ^ (blen v - p) = 0 := Nat.mod_eq_zero_of_dvd hd2
    simp only [roundSig, hb, if_false]
    have hh : ¬ (2 ^ (blen v - p - 1) < v % 2 ^ (blen v - p)) := by
      rw [hr]; exact Nat.not_lt_of_le (Nat.zero_le _)
    have hh2 : v % 2 ^ (blen v - p) < 2 ^ (blen v - p - 1) := by
      rw [hr]; exact pow_pos (by norm_num) _
    simp only [hh, if_false, hh2, if_true]
    exact Nat.div_mul_cancel hd2

theorem roundSig_le_add (p v j : Nat) (hv : v < 2 ^ (p + j))
    (hk : p + j ≤ 128) : roundSig p v ≤ v + 2 ^ j := by
  by_cases hb : blen v ≤ p
  · rw [roundSig_eq_of_blen_le p v hb]; exact Nat.le_add_right v _
  · have hble : blen v ≤ p + j := blen_le v (p + j) hk hv
    have hkk : blen v - p ≤ j := by omega
    have hq : v / 2 ^ (blen v - p) * 2 ^ (blen v - p) ≤ v := Nat.div_mul_le_self v _
    have hqj : v / 2 ^ (blen v - p) * 2 ^ (blen v - p) ≤ v + 2 ^ j :=
      le_trans hq (Nat.le_add_right v _)
    have hstep : (v / 2 ^ (blen v - p) + 1) * 2 ^ (blen v - p) ≤ v + 2 ^ j := by
      have he : (v / 2 ^ (blen v - p) + 1) * 2 ^ (blen v - p) =
        v / 2 ^ (blen v - p) * 2 ^ (blen v - p) + 2 ^ (blen v - p) := by ring
      rw [he]
      have hle : (2 : Nat) ^ (blen v - p) ≤ 2 ^ j := Nat.pow_le_pow_right (by omega) hkk
      exact Nat.add_le_add hq hle
    simp only [roundSig, hb, if_false]
    split
    · exact hstep
    · split
      · exact hqj
      · split
        · exact hqj
        · exact hstep

theorem round53_idem (v : Nat) (hv : v < 2 ^ 110) :
    round53 (round53 v) = round53 v := by
  by_cases hb : blen v ≤ 53
  · simp only [round53, roundSig_eq_of_blen_le 53 v hb]
  · have hble : blen v ≤ 110 := blen_le v 110 (by omega) hv
    have hv0 : v ≠ 0 := by
      intro h; subst h; simp [blen, blenAux] at hb
    obtain ⟨hlo, hhi⟩ := blen_correct v (lt_trans hv (by norm_num)) hv0
    have hqlt : v / 2 ^ (blen v - 53) < 2 ^ 53 := by
      rw [Nat.div_lt_iff_lt_mul (pow_pos (by norm_num) _)]
      calc v < 2 ^ blen v := hhi
        _ = 2 ^ 53 * 2 ^ (blen v - 53) := by
          rw [← Nat.pow_add]
          congr 1
          omega
    -- the rounded value is q2 * 2^k with q2 ≤ 2^53
    have key : ∀ q2, q2 ≤ 2 ^ 53 → round53 (q2 * 2 ^ (blen v - 53)) = q2 * 2 ^ (blen v - 53) := by
      intro q2 hq2
      by_cases hq3 : q2 < 2 ^ 53
      · refine roundSig_dvd_eq 53 _ (blen v - 53) (by omega) (dvd_mul_left _ _) ?_ (by omega)
        calc q2 * 2 ^ (blen v - 53) < 2 ^ 53 * 2 ^ (blen v - 53) := by
              exact Nat.mul_lt_mul_of_lt_of_le hq3 (le_refl _) (pow_pos (by norm_num) _)
          _ = 2 ^ (53 + (blen v - 53)) := by rw [Nat.pow_add]
      · have hq53 : q2 = 2 ^ 53 := by omega
        subst hq53
        have heq : 2 ^ 53 * 2 ^ (blen v - 53) = 2 ^ (53 + (blen v - 53)) := by
          rw [Nat.pow_add]
        rw [heq]
        refine roundSig_dvd_eq 53 _ (blen v - 53 + 1) (by omega) ?_ ?_ (by omega)
        · exact Nat.pow_dvd_pow 2 (by omega)
        · exact Nat.pow_lt_pow_right (by norm_num) (by omega)
    simp only [round53, roundSig, hb, if_false]
    split
    · exact key _ (by omega)
    · split
      · exact key _ (by omega)
      · split
        · exact key _ (by omega)
        · exact key _ (by omega)

theorem TWO16_eq : TWO16 = 65536 := by norm_num [TWO16]

theorem TWO48_eq : TWO48 = 281474976710656 := by norm_num [TWO48]

theorem TWO53_eq : TWO53 = 9007199254740992 := by norm_num [TWO53]

theorem TWO64_eq : TWO64 = 18446744073709551616 := by norm_num [TWO64]

theorem rand48_step_lt (x : Nat) : rand48_step x < TWO48 :=
  Nat.mod_lt _ (by norm_num [TWO48])

theorem round53_le53 (v : Nat) (h : v ≤ TWO53) : round53 v = v := by
  rcases Nat.lt_or_ge v TWO53 with hlt | hge
  · exact roundSig_eq_of_lt 53 v (by norm_num) (by rw [TWO53_eq] at hlt; norm_num; omega)
  · have hv : v = 2 ^ 53 := by
      rw [TWO53_eq] at h hge; norm_num; omega
    subst hv
    exact roundSig_dvd_eq 53 _ 1 (by norm_num) (Nat.pow_dvd_pow 2 (by norm_num))
      (by norm_num) (by norm_num)

/-- Generic upper bound for a zero-based ranged draw: for any range size
1 ≤ n ≤ 2^53 (so (double)n is exact), the value of
`(unsigned long)(erand48() * n + 0)` is at most n - 1, for every LCG word. -/
theorem rangedFrom_zero_le (x1 n : Nat) (hx : x1 < TWO48) (h1 : 1 ≤ n)
    (h2 : n ≤ TWO53) : rangedFrom x1 0 (n - 1) ≤ n - 1 := by
  have hbigN : (u64sub (n - 1) 0 + 1) % TWO64 = n := by
    rw [u64sub, TWO64_eq]
    rw [TWO53_eq] at h2
    omega
  have hnd : round53 ((u64sub (n - 1) 0 + 1) % TWO64) = n := by
    rw [hbigN]; exact round53_le53 n h2
  have hd : round53 (x1 * n) < TWO48 * n := by
    rcases Nat.lt_or_ge (x1 * n) (2 ^ 53) with hc | hc
    · rw [round53, roundSig_eq_of_lt 53 _ (by norm_num) hc]
      exact Nat.mul_lt_mul_of_lt_of_le hx (le_refl n) (by omega)
    · have hn0 : n ≠ 0 := by omega
      have hn128 : n < 2 ^ 128 := by
        rw [TWO53_eq] at h2; norm_num; omega
      obtain ⟨hjlo, hjhi⟩ := blen_correct n hn128 hn0
      have hn33 : 33 ≤ n := by
        by_contra hlt
        have : x1 * n < 2 ^ 53 := by
          calc x1 * n ≤ x1 * 32 := Nat.mul_le_mul_left x1 (by omega)
            _ < TWO48 * 32 := by
                exact Nat.mul_lt_mul_of_lt_of_le hx (le_refl 32) (by norm_num)
            _ ≤ 2 ^ 53 := by rw [TWO48_eq]; norm_num
        omega
      have hj6 : 6 ≤ blen n := by
        by_contra hlt
        have h5 : blen n ≤ 5 := by omega
        have : (2 : Nat) ^ blen n ≤ 2 ^ 5 := Nat.pow_le_pow_right (by norm_num) h5
        omega
      have hj54 : blen n ≤ 54 := by
        apply blen_le n 54 (by norm_num)
        rw [TWO53_eq] at h2; norm_num; omega
      have hub : x1 * n < 2 ^ (53 + (blen n - 5)) := by
        have he : 53 + (blen n - 5) = 48 + blen n := by omega
        rw [he, Nat.pow_add]
        have hx' : x1 < 2 ^ 48 := by rw [TWO48_eq] at hx; norm_num; omega
        exact Nat.mul_lt_mul_of_lt_of_le hx' (le_of_lt hjhi) (by positivity)
      have hle := roundSig_le_add 53 (x1 * n) (blen n - 5) hub (by omega)
      have hsmall : (2 : Nat) ^ (blen n - 5) < n := by
        calc (2 : Nat) ^ (blen n - 5) < 2 ^ (blen n - 1) :=
          Nat.pow_lt_pow_right (by norm_num) (by omega)
          _ ≤ n := hjlo
      have hxn : x1 * n ≤ TWO48 * n - n := by
        have : x1 * n ≤ (TWO48 - 1) * n := Nat.mul_le_mul_right n (by omega)
        have he2 : (TWO48 - 1) * n = TWO48 * n - n := by
          rw [Nat.sub_mul, one_mul]
        omega
      have hnn : n ≤ TWO48 * n := Nat.le_mul_of_pos_left n (by norm_num [TWO48])
      rw [round53] at *
      omega
  have hidem : round53 (round53 (x1 * n)) = round53 (x1 * n) :=
    round53_idem (x1 * n) (by
      have : x1 * n < TWO48 * TWO53 := by
        apply Nat.mul_lt_mul_of_lt_of_le hx
        · exact h2
        · rw [TWO53_eq]; norm_num
      rw [TWO48_eq, TWO53_eq] at this
      norm_num
      omega)
  have hfinal : round53 (round53 (x1 * n) + 0 * TWO48) / TWO48 ≤ n - 1 := by
    rw [Nat.zero_mul, Nat.add_zero, hidem]
    have : round53 (x1 * n) / TWO48 < n :=
      (Nat.div_lt_iff_lt_mul (by norm_num [TWO48])).2 (by
        calc round53 (x1 * n) < TWO48 * n := hd
          _ = n * TWO48 := Nat.mul_comm _ _)
    omega
  calc rangedFrom x1 0 (n - 1)
      = round53 (round53 (x1 * round53 ((u64sub (n - 1) 0 + 1) % TWO64)) + 0 * TWO48) / TWO48 :=
        rfl
    _ = round53 (round53 (x1 * n) + 0 * TWO48) / TWO48 := by rw [hnd]
    _ ≤ n - 1 := hfinal

/-- The [1,64] draw of variate slot 3 (count for string operations): the
double arithmetic is exact here and the value lies in [1, 64]. -/
theorem rangedFrom_one_64 (x1 : Nat) (hx : x1 < TWO48) :
    1 ≤ rangedFrom x1 1 64 ∧ rangedFrom x1 1 64 ≤ 64 := by
  have hbigN : (u64sub 64 1 + 1) % TWO64 = 64 := by decide
  have hnd : round53 ((u64sub 64 1 + 1) % TWO64) = 64 := by
    rw [hbigN]; exact round53_le53 64 (by rw [TWO53_eq]; norm_num)
  have hmul : x1 * 64 < TWO48 * 64 :=
    Nat.mul_lt_mul_of_lt_of_le hx (le_refl 64) (by norm_num)
  have hd : round53 (x1 * 64) = x1 * 64 := by
    refine roundSig_dvd_eq 53 _ 6 (by norm_num) ⟨x1, by ring⟩ ?_ (by norm_num)
    calc x1 * 64 < TWO48 * 64 := hmul
      _ < 2 ^ (53 + 6) := by rw [TWO48_eq]; norm_num
  have hsum : round53 (x1 * 64 + 1 * TWO48) = x1 * 64 + 1 * TWO48 := by
    refine roundSig_dvd_eq 53 _ 6 (by norm_num) ?_ ?_ (by norm_num)
    · refine Dvd.dvd.add ⟨x1, by ring⟩ ?_
      rw [Nat.one_mul, TWO48_eq]
      exact ⟨4398046511104, by norm_num⟩
    · calc x1 * 64 + 1 * TWO48 < TWO48 * 64 + 1 * TWO48 := by omega
        _ < 2 ^ (53 + 6) := by rw [TWO48_eq]; norm_num
  have hval : rangedFrom x1 1 64 = x1 * 64 / TWO48 + 1 := by
    calc rangedFrom x1 1 64
        = round53 (round53 (x1 * round53 ((u64sub 64 1 + 1) % TWO64)) + 1 * TWO48) / TWO48 := rfl
      _ = round53 (x1 * 64 + 1 * TWO48) / TWO48 := by rw [hnd, hd]
      _ = (x1 * 64 + TWO48) / TWO48 := by rw [hsum, Nat.one_mul]
      _ = x1 * 64 / TWO48 + 1 := Nat.add_div_right _ (by norm_num [TWO48])
  constructor
  · rw [hval]; exact Nat.le_add_left 1 _
  · rw [hval]
    have h64 : x1 * 64 < 64 * TWO48 := by
      rw [Nat.mul_comm 64 TWO48]; exact hmul
    have hdiv : x1 * 64 / TWO48 < 64 :=
      (Nat.div_lt_iff_lt_mul (by norm_num [TWO48])).2 h64
    omega

/-- getD stays below a bound that covers every element and the default. -/
theorem getD_le_of_all (l : List Nat) (bnd d i : Nat) (h : ∀ p ∈ l, p ≤ bnd)
    (hd : d ≤ bnd) : l.getD i d ≤ bnd := by
  induction l generalizing i with
  | nil => simpa [List.getD] using hd
  | cons a t ih =>
    cases i with
    | zero => simpa [List.getD] using h a (List.mem_cons_self a t)
    | succ j =>
      have := ih j (fun p hp => h p (List.mem_cons_of_mem a hp))
      simpa [List.getD] using this

/-- Shape of the generated tuple with no port list: each slot as a
function of the LCG word chain. -/
theorem genFrom_tuple_none (x a5 a6 : Nat) :
    (genFrom x none a5 a6).tuple =
      [rangedFrom (rand48_step x) 0 11,
       (_iofuzzer_random_number (rand48_step x)).1,
       (_iofuzzer_random_number (mixWord (rand48_step x))).1,
       rangedFrom (slot3Word x) 1 64,
       rangedFrom (slot4Word x) 0 MAXPORT,
       a5, a6] := rfl

/-- Shape of the generated tuple with a port list installed: slot 4 reads
the array at a drawn index (an index at or past the logical length - in
particular the empty-list draw - reads the stale backing store). -/
theorem genFrom_tuple_some (x a5 a6 : Nat) (pa : PortArray) :
    (genFrom x (some pa) a5 a6).tuple =
      [rangedFrom (rand48_step x) 0 11,
       (_iofuzzer_random_number (rand48_step x)).1,
       (_iofuzzer_random_number (mixWord (rand48_step x))).1,
       rangedFrom (slot3Word x) 1 64,
       portRead pa
         (rangedFrom (slot4Word x) 0 (u64sub (pa.entries.length % TWO64) 1)),
       a5, a6] := rfl

/-- variatesOk unpacked: it says exactly that the list has length 7 and
slots 0, 3, 4 are in their claimed ranges. -/
theorem variatesOk_iff (l : List Nat) :
    variatesOk l ↔
      (l.length = 7 ∧ l.getD 0 0 ≤ 11 ∧ 1 ≤ l.getD 3 0 ∧
        l.getD 3 0 ≤ 64 ∧ l.getD 4 0 ≤ MAXPORT) := by
  rcases l with _ | ⟨v0, l⟩
  · simp [variatesOk]
  rcases l with _ | ⟨v1, l⟩
  · simp [variatesOk]
  rcases l with _ | ⟨v2, l⟩
  · simp [variatesOk]
  rcases l with _ | ⟨v3, l⟩
  · simp [variatesOk]
  rcases l with _ | ⟨v4, l⟩
  · simp [variatesOk]
  rcases l with _ | ⟨v5, l⟩
  · simp [variatesOk]
  rcases l with _ | ⟨v6, l⟩
  · simp [variatesOk]
  rcases l with _ | ⟨v7, l⟩
  · simp [variatesOk, List.getD]
  · simp [variatesOk, List.getD]

/-- A port-array read at an index inside the logical length stays within
the entry bound. -/
theorem portRead_le (pa : PortArray) (i : Nat) (hi : i < pa.entries.length)
    (hb : ∀ p ∈ pa.entries, p ≤ MAXPORT) : portRead pa i ≤ MAXPORT := by
  rw [portRead, dif_pos hi]
  exact hb _ (pa.entries.get_mem i hi)

/-- One variate generation establishes the claimed slot invariants, for
any starting LCG word, whenever the installed port list satisfies
PortsOk. -/
theorem genFrom_inv (x : Nat) (ports : Option PortArray) (a5 a6 : Nat)
    (hp : PortsOk ports) : variatesOk (genFrom x ports a5 a6).tuple := by
  have h11 : ∀ y : Nat, rangedFrom (rand48_step y) 0 11 ≤ 11 := by
    intro y
    have := rangedFrom_zero_le (rand48_step y) 12 (rand48_step_lt y)
      (by norm_num) (by rw [TWO53_eq]; norm_num)
    simpa using this
  have h64 : ∀ y : Nat,
      1 ≤ rangedFrom (rand48_step y) 1 64 ∧ rangedFrom (rand48_step y) 1 64 ≤ 64 :=
    fun y => rangedFrom_one_64 (rand48_step y) (rand48_step_lt y)
  have hport : ∀ y : Nat, rangedFrom (rand48_step y) 0 MAXPORT ≤ MAXPORT := by
    intro y
    have := rangedFrom_zero_le (rand48_step y) 65536 (rand48_step_lt y)
      (by norm_num) (by rw [TWO53_eq]; norm_num)
    simpa [MAXPORT] using this
  cases ports with
  | none =>
    rw [genFrom_tuple_none]
    exact ⟨h11 x, (h64 _).1, (h64 _).2, hport _⟩
  | some pa =>
    obtain ⟨hne, hlen, hb⟩ := hp
    have hlen1 : 1 ≤ pa.entries.length := List.length_pos.2 hne
    have hlt : pa.entries.length < TWO64 := by
      rw [TWO64_eq]
      rw [TWO53_eq] at hlen
      omega
    have hsub : u64sub (pa.entries.length % TWO64) 1 = pa.entries.length - 1 := by
      rw [Nat.mod_eq_of_lt hlt, u64sub, TWO64_eq]
      rw [TWO64_eq] at hlt
      omega
    have hidx : rangedFrom (slot4Word x) 0 (pa.entries.length - 1) ≤
        pa.entries.length - 1 :=
      rangedFrom_zero_le (slot4Word x) pa.entries.length
        (rand48_step_lt (slot3Word x)) hlen1 hlen
    rw [genFrom_tuple_some, hsub]
    exact ⟨h11 x, (h64 _).1, (h64 _).2, portRead_le pa _ (by omega) hb⟩

/-
Field-level equations of the public operations, each proved from the
definitions.  (`cases f` first, so the elaborator reduces projections of
the explicit constructor instead of attempting structure-eta comparisons
that would unfold the 254-draw string chains.)
-/

theorem iofuzzer_new_variates (a5 a6 : Nat) :
    (iofuzzer_new a5 a6).variates = (genFrom 0 none a5 a6).tuple := rfl

theorem iofuzzer_new_ports (a5 a6 : Nat) :
    (iofuzzer_new a5 a6).ports = none := rfl

theorem iofuzzer_set_ports_ports (f : Fuzzer) (ps : Option PortArray) :
    (iofuzzer_set_ports f ps).ports = ps := by
  cases f
  rfl

theorem iofuzzer_set_ports_variates (f : Fuzzer) (ps : Option PortArray) :
    (iofuzzer_set_ports f ps).variates =
      (genFrom (genFrom (f.state.1 % TWO48) ps f.a5 f.a6).xEnd ps f.a5 f.a6).tuple := by
  cases f
  rfl

theorem iofuzzer_set_ports_state (f : Fuzzer) (ps : Option PortArray) :
    (iofuzzer_set_ports f ps).state =
      ((genFrom (f.state.1 % TWO48) ps f.a5 f.a6).xEnd, f.state.2 % TWO16) := by
  cases f
  rfl

theorem iofuzzer_set_ports_x (f : Fuzzer) (ps : Option PortArray) :
    (iofuzzer_set_ports f ps).x =
      (genFrom (genFrom (f.state.1 % TWO48) ps f.a5 f.a6).xEnd ps f.a5 f.a6).xEnd := by
  cases f
  rfl

theorem iofuzzer_set_random_ports (f : Fuzzer) (rx rhi : Nat) :
    (iofuzzer_set_random f rx rhi).ports = f.ports := by
  cases f
  rfl

theorem iofuzzer_set_random_variates (f : Fuzzer) (rx rhi : Nat) :
    (iofuzzer_set_random f rx rhi).variates =
      (genFrom (rx % TWO48) f.ports f.a5 f.a6).tuple := by
  cases f
  rfl

theorem iofuzzer_set_random_state (f : Fuzzer) (rx rhi : Nat) :
    (iofuzzer_set_random f rx rhi).state = (rx % TWO48, rhi % TWO16) := by
  cases f
  rfl

theorem iofuzzer_set_random_x (f : Fuzzer) (rx rhi : Nat) :
    (iofuzzer_set_random f rx rhi).x =
      (genFrom (rx % TWO48) f.ports f.a5 f.a6).xEnd := by
  cases f
  rfl

theorem iofuzzer_set_state_ports (f : Fuzzer) (s : Nat × Nat) :
    (iofuzzer_set_state f s).ports = f.ports := by
  cases f
  rfl

theorem iofuzzer_set_state_variates (f : Fuzzer) (s : Nat × Nat) :
    (iofuzzer_set_state f s).variates =
      (genFrom (s.1 % TWO48) f.ports f.a5 f.a6).tuple := by
  cases f
  rfl

theorem iofuzzer_iterate_ports (f : Fuzzer) :
    (iofuzzer_iterate f).ports = f.ports := by
  cases f
  rfl

theorem iofuzzer_iterate_variates (f : Fuzzer) :
    (iofuzzer_iterate f).variates = (genFrom f.x f.ports f.a5 f.a6).tuple := by
  cases f
  rfl

theorem iofuzzer_iterate_with_state_ports (f : Fuzzer) (s : Nat × Nat) :
    (iofuzzer_iterate_with_state f s).ports = f.ports := by
  cases f
  rfl

theorem iofuzzer_iterate_with_state_variates (f : Fuzzer) (s : Nat × Nat) :
    (iofuzzer_iterate_with_state f s).variates =
      (genFrom (genFrom (s.1 % TWO48) f.ports f.a5 f.a6).xEnd f.ports f.a5 f.a6).tuple := by
  cases f
  rfl

theorem iofuzzer_iterate_with_state_state (f : Fuzzer) (s : Nat × Nat) :
    (iofuzzer_iterate_with_state f s).state =
      ((genFrom (s.1 % TWO48) f.ports f.a5 f.a6).xEnd, s.2 % TWO16) := by
  cases f
  rfl

theorem iofuzzer_iterate_with_state_dispatched (f : Fuzzer) (s : Nat × Nat) :
    (iofuzzer_iterate_with_state f s).dispatched =
      (genFrom (s.1 % TWO48) f.ports f.a5 f.a6).tuple := by
  cases f
  rfl

/-- Induction over the public operations: in every ReachableBounded state
the installed port list is in range and the variate invariant holds. -/
theorem reachableBounded_inv (f : Fuzzer) (h : ReachableBounded f) :
    PortsOk f.ports ∧ VariatesInv f := by
  induction h with
  | new a5 a6 =>
    constructor
    · rw [iofuzzer_new_ports]
      trivial
    · show variatesOk (iofuzzer_new a5 a6).variates
      rw [iofuzzer_new_variates]
      exact genFrom_inv _ _ _ _ trivial
  | set_ports f ps hps _ _ =>
    constructor
    · rw [iofuzzer_set_ports_ports]
      exact hps
    · show variatesOk (iofuzzer_set_ports f ps).variates
      rw [iofuzzer_set_ports_variates]
      exact genFrom_inv _ _ _ _ hps
  | set_random f rx rhi _ ih =>
    constructor
    · rw [iofuzzer_set_random_ports]
      exact ih.1
    · show variatesOk (iofuzzer_set_random f rx rhi).variates
      rw [iofuzzer_set_random_variates]
      exact genFrom_inv _ _ _ _ ih.1
  | set_state f s _ ih =>
    constructor
    · rw [iofuzzer_set_state_ports]
      exact ih.1
    · show variatesOk (iofuzzer_set_state f s).variates
      rw [iofuzzer_set_state_variates]
      exact genFrom_inv _ _ _ _ ih.1
  | iterate f _ ih =>
    constructor
    · rw [iofuzzer_iterate_ports]
      exact ih.1
    · show variatesOk (iofuzzer_iterate f).variates
      rw [iofuzzer_iterate_variates]
      exact genFrom_inv _ _ _ _ ih.1
  | iterate_with_state f s _ ih =>
    constructor
    · rw [iofuzzer_iterate_with_state_ports]
      exact ih.1
    · show variatesOk (iofuzzer_iterate_with_state f s).variates
      rw [iofuzzer_iterate_with_state_variates]
      exact genFrom_inv _ _ _ _ ih.1

/-- The loop of random_string writes exactly `n` characters. -/
theorem random_string_bytes_length (n x : Nat) :
    (random_string_bytes n x).length = n := by
  induction n generalizing x with
  | zero => rfl
  | succ m ih => simp [random_string_bytes, ih]

/-- At the fuzzer's fixed buffer size MAXSIZE = 256 the loop count 254
is far below the int-overflow threshold, so random_string returns the
defined value random_string_max. -/
theorem random_string_at_256 (x : Nat) :
    random_string x 256 = some (random_string_max x) := rfl

/-- The element just past a list, in a one-element extension. -/
theorem getD_append_length (l : List Nat) (d : Nat) :
    (l ++ [0]).getD l.length d = 0 := by
  induction l with
  | nil => rfl
  | cons a t ih => simpa [List.getD] using ih

/-- For a length argument in [2, 2^64) the size_t loop bound does not
wrap: random_string performs length - 2 character writes. -/
theorem rsWriteCount_eq (L : Nat) (h2 : 2 ≤ L) (hL : L < TWO64) :
    rsWriteCount L = L - 2 := by
  rw [rsWriteCount, u64sub, TWO64_eq]
  rw [TWO64_eq] at hL
  omega

/-
Claim theorems.
-/

set_option maxRecDepth 100000 in
/-- C1, counterexample.  The claim says iterate_with_state(S) leaves the
fuzzer's current variate tuple equal to the tuple V generated from S.
Take the fresh fuzzer F = set_ports(new(), [0x80]) (buffer addresses 5
and 6, calloc-zeroed backing store behind the one-entry port array),
the zero snapshot S = (0,0), and V = the tuple the generator
produces from S with this port list - exactly what a log line records
next to S, since _iofuzzer_randomize snapshots the pre-draw state.
After iofuzzer_iterate_with_state(F, S) the current tuple differs from
V: the call regenerates V, dispatches it, then randomizes once more. -/
theorem C1_replay_counterexample :
    (iofuzzer_iterate_with_state
        (iofuzzer_set_ports (iofuzzer_new 5 6)
          (some ⟨[128], fun _ => 0⟩)) (0, 0)).variates
      ≠ (genFrom 0 (some ⟨[128], fun _ => 0⟩) 5 6).tuple := by decide

/-- C1, amended.  iofuzzer_iterate_with_state(S) regenerates from S
exactly the tuple V that the variate generator produces from S with the
current port list, and dispatches that tuple (so replay reproduces the
EXECUTED instruction); but it then runs the generator once more, so on
return the stored snapshot is the RNG state reached after regenerating V
and the current variate tuple is V's successor, not V. -/
theorem C1_iterate_with_state_amended (f : Fuzzer) (s : Nat × Nat) :
    (iofuzzer_iterate_with_state f s).dispatched =
      (genFrom (s.1 % TWO48) f.ports f.a5 f.a6).tuple ∧
    (iofuzzer_iterate_with_state f s).variates =
      (genFrom (genFrom (s.1 % TWO48) f.ports f.a5 f.a6).xEnd f.ports f.a5 f.a6).tuple ∧
    (iofuzzer_iterate_with_state f s).state =
      ((genFrom (s.1 % TWO48) f.ports f.a5 f.a6).xEnd, s.2 % TWO16) :=
  ⟨iofuzzer_iterate_with_state_dispatched f s,
   iofuzzer_iterate_with_state_variates f s,
   iofuzzer_iterate_with_state_state f s⟩

/-- C2, counterexample.  The claim quantifies over every state reachable
through the public operations, but iofuzzer_set_variates installs ANY
caller-supplied array: after set_variates(new(), empty) the variate
array has length 0, not 7. -/
theorem C2_variates_invariant_counterexample :
    Reachable (iofuzzer_set_variates (iofuzzer_new 0 0) []) ∧
      (iofuzzer_set_variates (iofuzzer_new 0 0) []).variates.length ≠ 7 :=
  ⟨Reachable.set_variates _ _ (Reachable.new 0 0), by decide⟩

/-- C2, amended.  In every state reachable through construction and the
public operations OTHER than iofuzzer_set_variates, and with every
installed port list either NULL or nonempty with at most 2^53 entries,
all ≤ 0xFFFF, the variate array has length 7 with slot 0 in [0,11],
slot 3 in [1,64] and slot 4 in [0,0xFFFF].  (An installed EMPTY list
must be excluded: the slot-4 index draw then underflows in size_t and
reads a stale word of the array's backing store, which no bound
constrains.) -/
theorem C2_variates_invariant_amended (f : Fuzzer) (h : ReachableBounded f) :
    f.variates.length = 7 ∧ f.variates.getD 0 0 ≤ 11 ∧
      1 ≤ f.variates.getD 3 0 ∧ f.variates.getD 3 0 ≤ 64 ∧
      f.variates.getD 4 0 ≤ MAXPORT :=
  (variatesOk_iff f.variates).1 (reachableBounded_inv f h).2

/-- C2, witness: a freshly constructed fuzzer is ReachableBounded and
satisfies the invariant. -/
theorem C2_variates_invariant_amended_witness :
    (iofuzzer_new 0 0).variates.length = 7 ∧
      (iofuzzer_new 0 0).variates.getD 0 0 ≤ 11 ∧
      1 ≤ (iofuzzer_new 0 0).variates.getD 3 0 ∧
      (iofuzzer_new 0 0).variates.getD 3 0 ≤ 64 ∧
      (iofuzzer_new 0 0).variates.getD 4 0 ≤ MAXPORT :=
  C2_variates_invariant_amended _ (ReachableBounded.new 0 0)

/-- C3, counterexample.  The claim says random_string(buf, 1) never
overruns, but the loop bound `length - 2` is computed in size_t, so for
length 1 it wraps to 2^64 - 1 and the loop stores to buf[1] (and far
beyond - long before the int counter could overflow), outside the
1-byte buffer. -/
theorem C3_random_string_counterexample :
    rsWritesIndex 1 1 ∧ rsWriteCount 1 = TWO64 - 1 := by decide

/-- C3, amended.  For 2 ≤ n ≤ 2^31 + 1 - large enough that the size_t
loop bound n - 2 does not wrap, small enough that the int loop counter
cannot overflow - random_string(buf, n) has defined behavior: it writes
n - 2 characters at buf[0..n-3] followed by a NUL at buf[n-2], and every
store stays at an index ≤ n - 2, so buf[n-1] is untouched (for n = 2 the
only byte written is the NUL at buf[0]).  For n ≤ 1 the size_t bound
wraps and the function overruns the buffer; for n ≥ 2^31 + 2 the int
counter overflows - undefined behavior - before the loop can finish. -/
theorem C3_random_string_amended (x bufLen : Nat) (h2 : 2 ≤ bufLen)
    (hI : bufLen ≤ 2 ^ 31 + 1) :
    random_string x bufLen =
      some (random_string_bytes (bufLen - 2) x ++ [0], lcgIter (bufLen - 2) x) ∧
    (random_string_bytes (bufLen - 2) x ++ [0]).length = bufLen - 1 ∧
    (random_string_bytes (bufLen - 2) x ++ [0]).getD (bufLen - 2) 1 = 0 ∧
    (∀ i, rsWritesIndex bufLen i → i ≤ bufLen - 2) := by
  have hL : bufLen < TWO64 := by rw [TWO64_eq]; omega
  have hc : rsWriteCount bufLen = bufLen - 2 := rsWriteCount_eq bufLen h2 hL
  have hsmall : rsWriteCount bufLen < 2 ^ 31 := by omega
  refine ⟨?_, ?_, ?_, ?_⟩
  · rw [random_string, if_pos hsmall, hc]
  · rw [List.length_append, random_string_bytes_length]
    simp
    omega
  · have hg := getD_append_length (random_string_bytes (bufLen - 2) x) 1
    rwa [random_string_bytes_length] at hg
  · intro i hi
    rcases hi with ⟨hlt, _⟩ | ⟨heq, _⟩
    · rw [hc] at hlt; omega
    · rw [hc] at heq; omega

/-- C3, witness: the amended statement at x = 0, n = 2 - defined
behavior, one NUL at buf[0], nothing else. -/
theorem C3_random_string_amended_witness :
    random_string 0 2 =
      some (random_string_bytes (2 - 2) 0 ++ [0], lcgIter (2 - 2) 0) ∧
    (random_string_bytes (2 - 2) 0 ++ [0]).length = 2 - 1 ∧
    (random_string_bytes (2 - 2) 0 ++ [0]).getD (2 - 2) 1 = 0 ∧
    (∀ i, rsWritesIndex 2 i → i ≤ 2 - 2) :=
  C3_random_string_amended 0 2 (by norm_num) (by norm_num)

set_option maxRecDepth 100000 in
/-- C4, code bug.  The charset literal writes `%%`, which in a plain C
string is two `%` characters, and the index is drawn in
[0, sizeof(charset) - 1] = [0, 96], which includes the NUL terminator at
index 96.  So the 97-byte array holds `%` (0x25) twice (indices 5 and 6)
and a NUL; with the LCG at 142368275371844 (0x817bb27b1744) the next
draw lands on index 96 and the character written by random_string is
the byte 0x00 - not one of the 95 printable characters, and the 95
characters are not drawn with equal probability. -/
theorem C4_random_string_charset_bug :
    charset.length = 97 ∧ charset.getD 5 1 = 37 ∧ charset.getD 6 1 = 37 ∧
      charset.getD 96 1 = 0 ∧
      random_string_bytes 1 142368275371844 = [0] := by decide

/-- C5, counterexample.  The claim says every value above 0xFFFF is
clamped, but a single token is never clamped: parsing the one-token spec
`0x10000` yields the list [0x10000], whose entry exceeds 0xFFFF. -/
theorem C5_port_clamp_counterexample :
    iofuzzer_parse_ports [(65536, none)] = [65536] ∧ MAXPORT < 65536 := by decide

/-- C5, amended.  Only the explicit HIGH bound of a LOW-HIGH range is
clamped to 0xFFFF, and each range expands inclusively from LOW to the
clamped HIGH (so ranges never contribute an entry above 0xFFFF, and a
range whose LOW exceeds 0xFFFF contributes nothing); every entry of the
result is ≤ 0xFFFF except those coming from single tokens, which are
appended unclamped. -/
theorem C5_port_clamp_amended (tokens : List (Nat × Option Nat)) :
    (∀ v ∈ iofuzzer_parse_ports tokens, v ≤ MAXPORT ∨ (v, none) ∈ tokens) ∧
    (∀ b e0 p, (b, some e0) ∈ tokens → b ≤ p →
      p ≤ (if MAXPORT < e0 then MAXPORT else e0) →
      p ∈ iofuzzer_parse_ports tokens) := by
  constructor
  · intro v hv
    rw [iofuzzer_parse_ports, List.mem_flatten] at hv
    obtain ⟨l, hl, hvl⟩ := hv
    rw [List.mem_map] at hl
    obtain ⟨t, ht, rfl⟩ := hl
    obtain ⟨b, eo⟩ := t
    cases eo with
    | none =>
      simp only [portToken, le_refl, if_true, List.mem_map, List.mem_range] at hvl
      obtain ⟨i, hi, rfl⟩ := hvl
      right
      have hi0 : i = 0 := by omega
      subst hi0
      simpa using ht
    | some e0 =>
      left
      simp only [portToken] at hvl
      by_cases hbe : b ≤ (if MAXPORT < e0 then MAXPORT else e0)
      · rw [if_pos hbe] at hvl
        rw [List.mem_map] at hvl
        obtain ⟨i, hi, rfl⟩ := hvl
        rw [List.mem_range] at hi
        have hEle : (if MAXPORT < e0 then MAXPORT else e0) ≤ MAXPORT := by
          split
          · exact le_refl _
          · omega
        omega
      · rw [if_neg hbe] at hvl
        exact absurd hvl (List.not_mem_nil v)
  · intro b e0 p ht hbp hpe
    rw [iofuzzer_parse_ports, List.mem_flatten]
    refine ⟨portToken (b, some e0), List.mem_map_of_mem portToken ht, ?_⟩
    simp only [portToken]
    rw [if_pos (le_trans hbp hpe)]
    rw [List.mem_map]
    exact ⟨p - b, by rw [List.mem_range]; omega, by omega⟩

/-- C5, witness: the spec's own round-trip example - parsing
`0xFFFE-0x1FFFF` yields [0xFFFE, 0xFFFF], and the amended theorem places
0xFFFF in the expansion. -/
theorem C5_port_clamp_amended_witness :
    iofuzzer_parse_ports [(65534, some 131071)] = [65534, 65535] ∧
      65535 ∈ iofuzzer_parse_ports [(65534, some 131071)] :=
  ⟨by decide,
   (C5_port_clamp_amended [(65534, some 131071)]).2 65534 131071 65535
     (by decide) (by decide) (by decide)⟩

set_option maxRecDepth 100000 in
/-- C6, counterexample.  The claim predicts capacity 16 elements at
construction and factor-2 growth, which for array_new(1) followed by
set-length 17 would give capacity 32 bytes.  The code records
`array->size = size` (ONE element) at construction and the grow loop
multiplies by growth_factor * m = 2m (factors 2, 4, 6, ...), so the
tracked capacity becomes 1 -> 2 -> 8 -> 48: 48 bytes, not 32. -/
theorem C6_array_growth_counterexample :
    _array_set_length (array_new 1) 17 =
      some { element_size := 1, length := 17, size := 48, allocBytes := 48 } ∧
    (48 : Nat) ≠ 32 := by decide

/-- C6, amended.  array_new callocs room for 16 elements but records a
tracked capacity (`size`) of ONE element's size; when growth is needed,
the loop multiplies the tracked capacity by growth_factor * m = 2m on
its m-th iteration (in float arithmetic, modelled by round24) until it
is at least the required byte size, and any result it returns satisfies
that bound. -/
theorem C6_array_growth_amended :
    (∀ s, (array_new s).size = s ∧ (array_new s).allocBytes = 16 * s) ∧
    (∀ req fuel m n res, growLoopAux req fuel m n = some res → req ≤ res) ∧
    (∀ req fuel m n, n < req →
      growLoopAux req (fuel + 1) m n =
        growLoopAux req fuel (m + 1) (round24 (round24 n * (2 * round24 m)))) := by
  refine ⟨fun s => ⟨rfl, rfl⟩, ?_, ?_⟩
  · intro req fuel
    induction fuel with
    | zero =>
      intro m n res h
      simp [growLoopAux] at h
    | succ fu ih =>
      intro m n res h
      simp only [growLoopAux] at h
      by_cases hc : req ≤ n
      · rw [if_pos hc] at h
        cases h
        exact hc
      · rw [if_neg hc] at h
        exact ih _ _ _ h
  · intro req fuel m n hlt
    simp only [growLoopAux]
    rw [if_neg (by omega)]
    rw [f32mul]

/-- C6, witness: the growth lemmas at the concrete counterexample run -
the loop started at capacity 1 with requirement 17 returns 48 ≥ 17, and
its first step multiplies by 2·1. -/
theorem C6_array_growth_amended_witness :
    ((array_new 3).size = 3 ∧ (array_new 3).allocBytes = 16 * 3) ∧
      (17 : Nat) ≤ 48 ∧
      growLoopAux 17 (63 + 1) 1 1 =
        growLoopAux 17 63 (1 + 1) (round24 (round24 1 * (2 * round24 1))) :=
  ⟨(C6_array_growth_amended).1 3,
   (C6_array_growth_amended).2.1 17 64 1 1 48 (by decide),
   (C6_array_growth_amended).2.2 17 63 1 1 (by decide)⟩

/-- C7, counterexample.  The state field is printed with %#llx, which
does not zero-pad: with --state 0x0123456789ABCDEF the first log line's
field 3 is the 15-digit literal `0x123456789abcdef`, not the claimed
`0x0123456789abcdef`. -/
theorem C7_state_field_counterexample :
    thread_first_state_field 5 6 81985529216486895 = "0x123456789abcdef" ∧
      ("0x123456789abcdef" : String) ≠ "0x0123456789abcdef" := by
  constructor
  · decide
  · decide

/-- C7, amended.  Field 3 of the first log line is the 8-byte snapshot
reinterpreted as an unsigned 64-bit little-endian word and printed by
printf %#llx: lowercase hex with a 0x prefix but NO zero padding (and a
bare `0` when the value is zero); for any seed below 2^64 the field is
exactly fmtHashLLX(seed). -/
theorem C7_state_field_amended (a5 a6 seed : Nat) (h : seed < TWO64) :
    thread_first_state_field a5 a6 seed = fmtHashLLX seed := by
  have hst : (worker_setup a5 a6 seed).state =
      ((seed % TWO48) % TWO48, (seed / TWO48) % TWO16) :=
    iofuzzer_set_random_state _ _ _
  have hu : stateU64 (worker_setup a5 a6 seed).state = seed := by
    rw [hst]
    show (seed % TWO48) % TWO48 % TWO48 + (seed / TWO48) % TWO16 % TWO16 * TWO48 = seed
    rw [TWO48_eq, TWO16_eq]
    rw [TWO64_eq] at h
    omega
  rw [thread_first_state_field, hu]

/-- C7, witness: the amended formatting law at the spec's example seed,
0x0123456789ABCDEF. -/
theorem C7_state_field_amended_witness :
    thread_first_state_field 5 6 81985529216486895 =
      fmtHashLLX 81985529216486895 :=
  C7_state_field_amended 5 6 81985529216486895 (by rw [TWO64_eq]; norm_num)

/-- C8, counterexample.  The claim says every operation rejects null
arguments with an invalid-argument error and no other effect, but
iofuzzer_set_ports checks only the fuzzer handle: with a NULL port list
it succeeds (installing "no list" and re-randomizing) instead of
failing, and iofuzzer_set_random with a NULL rng handle proceeds into a
NULL dereference instead of returning EINVAL. -/
theorem C8_null_args_counterexample :
    iofuzzer_set_ports_api (some (iofuzzer_new 5 6)) none ≠ CallResult.einval ∧
      iofuzzer_set_random_api (some (iofuzzer_new 5 6)) none = CallResult.crash := by
  constructor
  · intro hcontra
    exact CallResult.noConfusion hcontra
  · rfl

/-- C8, amended.  A null fuzzer handle is rejected with EINVAL by every
entry point, and a null state buffer is rejected with EINVAL (before any
mutation) by set_state, get_state and iterate_with_state; but set_ports
ACCEPTS a null port list (clearing the list and re-randomizing twice),
and set_random does not reject a null RNG handle - it installs it and
crashes on the first use. -/
theorem C8_null_args_amended :
    (∀ ports, iofuzzer_set_ports_api none ports = CallResult.einval) ∧
    (∀ r, iofuzzer_set_random_api none r = CallResult.einval) ∧
    (∀ s, iofuzzer_set_state_api none s = CallResult.einval) ∧
    (∀ f, iofuzzer_set_state_api (some f) none = CallResult.einval) ∧
    (∀ b sz, iofuzzer_get_state_api none b sz = CallResult.einval) ∧
    (∀ f sz, iofuzzer_get_state_api (some f) false sz = CallResult.einval) ∧
    (∀ s, iofuzzer_iterate_with_state_api none s = CallResult.einval) ∧
    (∀ f, iofuzzer_iterate_with_state_api (some f) none = CallResult.einval) ∧
    (∀ f, iofuzzer_set_ports_api (some f) none =
      CallResult.ok (iofuzzer_set_ports f none)) ∧
    (∀ f, iofuzzer_set_random_api (some f) none = CallResult.crash) :=
  ⟨fun _ => rfl, fun _ => rfl, fun _ => rfl, fun _ => rfl, fun _ _ => rfl,
   fun _ _ => rfl, fun _ => rfl, fun _ => rfl, fun _ => rfl, fun _ => rfl⟩

/-- C9, confirmed.  iofuzzer_get_state memcpys sizeof(fuzzer->state) = 8
bytes into the output buffer for every value of the size argument,
including sizes below 8: the size argument never bounds or alters what
is written. -/
theorem C9_get_state_ignores_size (f : Fuzzer) (s1 s2 : Nat) :
    iofuzzer_get_state f s1 = iofuzzer_get_state f s2 ∧
      (iofuzzer_get_state f s1).length = 8 :=
  ⟨rfl, rfl⟩

/-- C10, confirmed.  iofuzzer_set_ports restores the RNG from the stored
8-byte snapshot (discarding draws made since it) and then runs the
variate generator twice: afterwards the visible tuple is the SECOND
generation derived from the pre-call snapshot, the stored snapshot is
the RNG state after the FIRST generation, and the live RNG sits after
the second.  iofuzzer_set_random runs the generator exactly once from
the new handle's state, with no restore: its snapshot is the new RNG
state as installed. -/
theorem C10_set_ports_restores_then_generates_twice (f : Fuzzer)
    (ps : Option PortArray) (rx rhi : Nat) :
    (iofuzzer_set_ports f ps).ports = ps ∧
    (iofuzzer_set_ports f ps).state =
      ((genFrom (f.state.1 % TWO48) ps f.a5 f.a6).xEnd, f.state.2 % TWO16) ∧
    (iofuzzer_set_ports f ps).variates =
      (genFrom (genFrom (f.state.1 % TWO48) ps f.a5 f.a6).xEnd ps f.a5 f.a6).tuple ∧
    (iofuzzer_set_ports f ps).x =
      (genFrom (genFrom (f.state.1 % TWO48) ps f.a5 f.a6).xEnd ps f.a5 f.a6).xEnd ∧
    (iofuzzer_set_random f rx rhi).state = (rx % TWO48, rhi % TWO16) ∧
    (iofuzzer_set_random f rx rhi).variates =
      (genFrom (rx % TWO48) f.ports f.a5 f.a6).tuple ∧
    (iofuzzer_set_random f rx rhi).x =
      (genFrom (rx % TWO48) f.ports f.a5 f.a6).xEnd :=
  ⟨iofuzzer_set_ports_ports f ps, iofuzzer_set_ports_state f ps,
   iofuzzer_set_ports_variates f ps, iofuzzer_set_ports_x f ps,
   iofuzzer_set_random_state f rx rhi, iofuzzer_set_random_variates f rx rhi,
   iofuzzer_set_random_x f rx rhi⟩

end VmmFuzzer
